import Mathlib

/-!
Verification of habitat_baselines/common/rollout_storage.py (RolloutStorage).

The buffer tree of RolloutStorage is embedded shallowly: every leaf of the
TensorDict is a function from (time, simulator index) to a rational scalar
(feature dimensions are abstracted to one scalar per (time, env) cell; the
boolean masks leaf is stored as a rational, 0 for false and 1 for true,
matching how torch arithmetic consumes it as a 0/1 factor).  Machine floats
are modelled by exact rationals.  The TensorDict container itself
(habitat_baselines/common/tensor_dict.py) is not part of the sources at hand,
so its set/slice semantics are modelled from the spec where noted.
-/

/-- The leaves of the RolloutStorage buffer tree, as allocated in
RolloutStorage.__init__: a nested observations group (one leaf per sensor
name) and the fixed scalar leaves. -/
inductive Leaf where
  | observations (sensor : String)
  | recurrent_hidden_states
  | rewards
  | value_preds
  | returns
  | action_log_probs
  | actions
  | prev_actions
  | masks
deriving DecidableEq

/-- A buffer tree: each leaf maps (time, env) to a scalar.  Leaves are total
functions; the time bound numsteps+1 of the real tensors is a caller
precondition (spec section 4.2) and is not exercised by the claims. -/
def Buffers : Type := Leaf → Nat → Nat → ℚ

/-- The RolloutStorage state: the buffer tree, the per-buffer-half write
cursors (the Python list self.steps), the simulator count and the double
buffering flag. -/
structure RolloutStorage where
  numsteps : Nat
  num_envs : Nat
  is_double_buffered : Bool
  buffers : Buffers
  steps : List Nat

/-- self._nbuffers: 2 if double buffered else 1. -/
def RolloutStorage.nbuffers (st : RolloutStorage) : Nat :=
  if st.is_double_buffered then 2 else 1

/-- The step property: asserts all cursors equal steps[0] and returns
steps[0].  The assertion failure (or the IndexError on an empty cursor list)
is modelled as none. -/
def RolloutStorage.step (st : RolloutStorage) : Option Nat :=
  match st.steps.head? with
  | none => none
  | some s0 => if st.steps.all (fun x => x == s0) then some s0 else none

/-! ### compute_returns

The two backward recursions of RolloutStorage.compute_returns.  Both are
written with an explicit recursion depth d = step - t so that they are
structural (and hence kernel-evaluable); the top-level wrappers establish
exactly the loop of the source. -/

/-- The plain-return backward recursion, d steps above time t:
returns[t] = gamma * returns[t+1] * masks[t+1] + rewards[t], with
returns[step] = next_value (d = 0 means t = step). -/
def returnsNoGaeAux (rw mk : Nat → ℚ) (nv g : ℚ) : Nat → Nat → ℚ
  | 0, _ => nv
  | d + 1, t => g * returnsNoGaeAux rw mk nv g d (t + 1) * mk (t + 1) + rw t

/-- The value of the returns leaf at time t after the use_gae=False branch of
compute_returns with cursor s: next_value at t = s, the backward recursion
below s, and the old value above s (the loop never touches those cells). -/
def returnsNoGaeAt (rw mk old : Nat → ℚ) (nv g : ℚ) (s t : Nat) : ℚ :=
  if t ≤ s then returnsNoGaeAux rw mk nv g (s - t) t else old t

/-- The GAE accumulator after the loop iteration for time t (d = s - t):
gae = delta[t] + gamma * tau * gae * masks[t+1] with
delta[t] = rewards[t] + gamma * value_preds[t+1] * masks[t+1] - value_preds[t],
and gae initialised to 0 before the loop (d = 0 means t >= step). -/
def gaeAux (rw vp mk : Nat → ℚ) (g tau : ℚ) : Nat → Nat → ℚ
  | 0, _ => 0
  | d + 1, t =>
      (rw t + g * vp (t + 1) * mk (t + 1) - vp t)
        + g * tau * gaeAux rw vp mk g tau d (t + 1) * mk (t + 1)

/-- The value of the returns leaf at time t after the use_gae=True branch of
compute_returns with cursor s: gae + value_preds[t] for t < s, the old value
elsewhere (the GAE loop writes returns only at t in [0, step)). -/
def returnsGaeAt (rw vp mk old : Nat → ℚ) (g tau : ℚ) (s t : Nat) : ℚ :=
  if t < s then gaeAux rw vp mk g tau (s - t) t + vp t else old t

/-- RolloutStorage.compute_returns(next_value, use_gae, gamma, tau).
next_value is a per-simulator tensor.  Reads the common cursor via the step
property (whose assertion is modelled as none).  In the GAE branch
value_preds[step] is first overwritten with next_value and the recursion
reads that updated leaf; in the plain branch returns[step] is set to
next_value.  All other leaves are untouched. -/
def compute_returns (st : RolloutStorage) (next_value : Nat → ℚ)
    (use_gae : Bool) (gamma tau : ℚ) : Option RolloutStorage :=
  match st.step with
  | none => none
  | some s =>
    if use_gae then
      some { st with
        buffers := fun leaf t e =>
          match leaf with
          | Leaf.value_preds =>
              if t = s then next_value e else st.buffers Leaf.value_preds t e
          | Leaf.returns =>
              returnsGaeAt (fun k => st.buffers Leaf.rewards k e)
                (fun k => if k = s then next_value e
                          else st.buffers Leaf.value_preds k e)
                (fun k => st.buffers Leaf.masks k e)
                (fun k => st.buffers Leaf.returns k e) gamma tau s t
          | l => st.buffers l t e }
    else
      some { st with
        buffers := fun leaf t e =>
          match leaf with
          | Leaf.returns =>
              returnsNoGaeAt (fun k => st.buffers Leaf.rewards k e)
                (fun k => st.buffers Leaf.masks k e)
                (fun k => st.buffers Leaf.returns k e)
                (next_value e) gamma s t
          | l => st.buffers l t e }

/-! ### insert -/

/-- The optional per-step fields of RolloutStorage.insert.  Each supplied
field is a tensor over the env positions of the written slice (a function
from the offset within the slice to a scalar); observations is a nested
group, one tensor per sensor name.  None models a Python None argument. -/
structure InsertFields where
  observations : Option (String → Nat → ℚ)
  recurrent_hidden_states : Option (Nat → ℚ)
  actions : Option (Nat → ℚ)
  action_log_probs : Option (Nat → ℚ)
  value_preds : Option (Nat → ℚ)
  rewards : Option (Nat → ℚ)
  masks : Option (Nat → ℚ)

/-- The next_step dict of insert with the None entries dropped:
observations, recurrent_hidden_states, prev_actions (fed by the actions
argument) and masks.  Every other leaf is absent. -/
def nextStepVals (f : InsertFields) : Leaf → Option (Nat → ℚ)
  | Leaf.observations sensor => f.observations.map (fun g => g sensor)
  | Leaf.recurrent_hidden_states => f.recurrent_hidden_states
  | Leaf.prev_actions => f.actions
  | Leaf.masks => f.masks
  | _ => none

/-- The current_step dict of insert with the None entries dropped: actions,
action_log_probs and rewards.  Every other leaf is absent. -/
def currentStepVals (f : InsertFields) : Leaf → Option (Nat → ℚ)
  | Leaf.actions => f.actions
  | Leaf.action_log_probs => f.action_log_probs
  | Leaf.rewards => f.rewards
  | _ => none

/-- len(next_step) > 0 after dropping None entries. -/
def nextStepNonempty (f : InsertFields) : Bool :=
  f.observations.isSome || f.recurrent_hidden_states.isSome
    || f.actions.isSome || f.masks.isSome

/-- len(current_step) > 0 after dropping None entries. -/
def currentStepNonempty (f : InsertFields) : Bool :=
  f.actions.isSome || f.action_log_probs.isSome || f.rewards.isSome

/-- Modelled from the spec: TensorDict.set of habitat_baselines/common/
tensor_dict.py (absent from the sources at hand) with a
(time index, env slice) selector and strict=False, per spec section 4.1:
it writes each leaf whose key is present in the value tree over the selected
region, aligning the value's env axis with the slice, and silently skips the
leaves whose key is absent. -/
def setAt (buf : Buffers) (time lo hi : Nat)
    (vals : Leaf → Option (Nat → ℚ)) : Buffers :=
  fun leaf t e =>
    match vals leaf with
    | none => buf leaf t e
    | some v => if t = time ∧ lo ≤ e ∧ e < hi then v (e - lo) else buf leaf t e

/-- RolloutStorage.insert.  When double buffering is disabled the source
asserts buffer_index == 0 up front (failure: none).  The env slice is
[buffer_index * num_envs / nbuffers, (buffer_index + 1) * num_envs /
nbuffers).  The next_step group is written at time steps[buffer_index] + 1
and the current_step group at steps[buffer_index], each only when its dict is
nonempty; reading steps[buffer_index] out of range is the Python IndexError,
raised while evaluating the arguments of the first executed set, hence before
any write (none).  When both dicts are empty nothing is read or written and
the call returns normally. -/
def RolloutStorage.insert (st : RolloutStorage) (f : InsertFields) (buffer_index : Nat) :
    Option RolloutStorage :=
  if !st.is_double_buffered && buffer_index != 0 then none
  else
    if nextStepNonempty f || currentStepNonempty f then
      match st.steps.get? buffer_index with
      | none => none
      | some s =>
        let lo := buffer_index * st.num_envs / st.nbuffers
        let hi := (buffer_index + 1) * st.num_envs / st.nbuffers
        let b1 := if nextStepNonempty f
          then setAt st.buffers (s + 1) lo hi (nextStepVals f) else st.buffers
        let b2 := if currentStepNonempty f
          then setAt b1 s lo hi (currentStepVals f) else b1
        some { st with buffers := b2 }
    else some st

/-! ### after_update -/

/-- RolloutStorage.after_update: reads the common cursor via the step
property (all cursors must agree, else the assertion fires: none), then
performs the root-level slot assignment buffers[0] = buffers[step] —
modelled from the spec, section 4.1: it copies timestep step's values into
timestep 0 across every leaf — and resets every cursor to 0. -/
def after_update (st : RolloutStorage) : Option RolloutStorage :=
  match st.step with
  | none => none
  | some s =>
      some { st with
        buffers := fun leaf t e =>
          if t = 0 then st.buffers leaf s e else st.buffers leaf t e,
        steps := st.steps.map (fun _ => 0) }

/-! ### recurrent_generator -/

/-- Splits a list into consecutive pieces of the given size (the last piece
may be shorter), with an explicit fuel for structural recursion; fuel at
least the length of the list is enough when size is at least 1. -/
def chunksOfAux (size : Nat) : Nat → List Nat → List (List Nat)
  | _, [] => []
  | 0, _ :: _ => []
  | fuel + 1, x :: xs =>
      (x :: xs).take size :: chunksOfAux size fuel ((x :: xs).drop size)

/-- Splits a list into consecutive pieces of the given size. -/
def chunksOfSize (size : Nat) (l : List Nat) : List (List Nat) :=
  chunksOfAux size l.length l

/-- torch.Tensor.chunk(chunks) along dim 0 for a 1-D tensor: pieces of size
ceil(len / chunks); when len is not divisible this can produce FEWER than
chunks pieces (documented torch behavior).  chunks = 0 is a torch runtime
error and is outside every use below (every claim constrains
num_mini_batch to be at least 1 whenever the chunk call is reached). -/
def torchChunk (l : List Nat) (chunks : Nat) : List (List Nat) :=
  chunksOfSize ((l.length + chunks - 1) / chunks) l

/-- RolloutStorage.recurrent_generator, reduced to the partition of
simulator indices it yields one batch for: asserts num_simulators >=
num_mini_batch (the InsufficientSimulators failure: none, nothing yielded),
optionally warns on uneven divisibility (no state effect, not modelled), and
chunks torch.randperm(num_simulators) — the random permutation is passed in
as the perm argument — with torch.chunk(num_mini_batch).  Each chunk
produces exactly one yielded batch whose simulator-index set is the chunk. -/
def recurrent_generator (num_simulators num_mini_batch : Nat)
    (perm : List Nat) : Option (List (List Nat)) :=
  if num_simulators < num_mini_batch then none
  else some (torchChunk perm num_mini_batch)

/-! ### Concrete states used by the witnesses -/

/-- A single-buffered storage with cursor 2, all masks 1 (true),
rewards[t] = t + 1 and value_preds[t] = 2 * t, one simulator. -/
def wReturns : RolloutStorage where
  numsteps := 3
  num_envs := 1
  is_double_buffered := false
  buffers := fun leaf t _ =>
    match leaf with
    | Leaf.masks => 1
    | Leaf.rewards => (t : ℚ) + 1
    | Leaf.value_preds => 2 * (t : ℚ)
    | _ => 0
  steps := [2]

/-- Like wReturns but with the mask at time 1 false (an episode boundary
between timesteps 0 and 1). -/
def wMask : RolloutStorage where
  numsteps := 3
  num_envs := 1
  is_double_buffered := false
  buffers := fun leaf t _ =>
    match leaf with
    | Leaf.masks => if t = 1 then 0 else 1
    | Leaf.rewards => (t : ℚ) + 1
    | Leaf.value_preds => 2 * (t : ℚ)
    | _ => 0
  steps := [2]

/-- A single-buffered storage with two simulators, cursor 1, and every cell
holding its simulator index. -/
def wSingle : RolloutStorage where
  numsteps := 3
  num_envs := 2
  is_double_buffered := false
  buffers := fun _ _ e => (e : ℚ)
  steps := [1]

/-- A double-buffered storage with four simulators (two per half), both
cursors 1, and every cell holding its simulator index. -/
def wDouble : RolloutStorage where
  numsteps := 3
  num_envs := 4
  is_double_buffered := true
  buffers := fun _ _ e => (e : ℚ)
  steps := [1, 1]

/-- A double-buffered storage whose two cursors disagree. -/
def wBad : RolloutStorage where
  numsteps := 3
  num_envs := 2
  is_double_buffered := true
  buffers := fun _ _ _ => 0
  steps := [0, 1]

/-- An insert argument record with every field absent. -/
def emptyFields : InsertFields where
  observations := none
  recurrent_hidden_states := none
  actions := none
  action_log_probs := none
  value_preds := none
  rewards := none
  masks := none

/-- An insert argument record with every field present, each carrying a
distinctive value (as a function of the offset j within the written
slice). -/
def fullFields : InsertFields where
  observations := some (fun _ j => (10 : ℚ) + j)
  recurrent_hidden_states := some (fun j => (20 : ℚ) + j)
  actions := some (fun j => (30 : ℚ) + j)
  action_log_probs := some (fun j => (40 : ℚ) + j)
  value_preds := some (fun j => (50 : ℚ) + j)
  rewards := some (fun j => (60 : ℚ) + j)
  masks := some (fun _ => (1 : ℚ))

/-- The state after plain compute_returns on wReturns (gamma 1/2, bootstrap
10). -/
def wReturnsPlainOut : RolloutStorage :=
  (compute_returns wReturns (fun _ => 10) false (1/2) 0).getD wReturns

/-- The state after GAE compute_returns on wReturns with tau = 0. -/
def wReturnsGaeOut : RolloutStorage :=
  (compute_returns wReturns (fun _ => 10) true (1/2) 0).getD wReturns

/-- The state after plain compute_returns on wMask (gamma 1/2, tau 1/3). -/
def wMaskPlainOut : RolloutStorage :=
  (compute_returns wMask (fun _ => 10) false (1/2) (1/3)).getD wMask

/-- The state after GAE compute_returns on wMask (gamma 1/2, tau 1/3). -/
def wMaskGaeOut : RolloutStorage :=
  (compute_returns wMask (fun _ => 10) true (1/2) (1/3)).getD wMask

/-- The state after inserting fullFields into wSingle at buffer_index 0. -/
def wSingleOut : RolloutStorage :=
  (wSingle.insert fullFields 0).getD wSingle

/-- The state after inserting fullFields into wDouble at buffer_index 0. -/
def wDouble0Out : RolloutStorage :=
  (wDouble.insert fullFields 0).getD wDouble

/-- The state after inserting fullFields into wDouble at buffer_index 1. -/
def wDouble1Out : RolloutStorage :=
  (wDouble.insert fullFields 1).getD wDouble

/-- The state after after_update on wReturns. -/
def wAfterOut : RolloutStorage :=
  (after_update wReturns).getD wReturns

/-! ### Helper lemmas -/

/-- A setAt leaves a leaf alone when the value tree does not contain it. -/
theorem setAt_of_none (buf : Buffers) (time lo hi : Nat)
    (vals : Leaf → Option (Nat → ℚ)) (leaf : Leaf) (h : vals leaf = none)
    (t e : Nat) : setAt buf time lo hi vals leaf t e = buf leaf t e := by
  unfold setAt
  rw [h]

/-- A setAt writes a present leaf at the selected time inside the slice. -/
theorem setAt_of_some (buf : Buffers) (time lo hi : Nat)
    (vals : Leaf → Option (Nat → ℚ)) (leaf : Leaf) (v : Nat → ℚ)
    (h : vals leaf = some v) (e : Nat) (h1 : lo ≤ e) (h2 : e < hi) :
    setAt buf time lo hi vals leaf time e = v (e - lo) := by
  unfold setAt
  rw [h]
  simp [h1, h2]

/-- A setAt leaves every cell outside the (time, slice) selector alone. -/
theorem setAt_untouched (buf : Buffers) (time lo hi : Nat)
    (vals : Leaf → Option (Nat → ℚ)) (leaf : Leaf) (t e : Nat)
    (h : ¬(t = time ∧ lo ≤ e ∧ e < hi)) :
    setAt buf time lo hi vals leaf t e = buf leaf t e := by
  unfold setAt
  cases hv : vals leaf with
  | none => rfl
  | some v => simp [h]

/-- A successful insert that found a cursor produced exactly the two grouped
setAt writes of the source over the slice owned by buffer_index. -/
theorem insert_some_buffers (st st' : RolloutStorage) (f : InsertFields)
    (bi s : Nat) (hg : st.steps.get? bi = some s)
    (h : st.insert f bi = some st') :
    st'.buffers =
      (if currentStepNonempty f then
        setAt
          (if nextStepNonempty f then
            setAt st.buffers (s + 1) (bi * st.num_envs / st.nbuffers)
              ((bi + 1) * st.num_envs / st.nbuffers) (nextStepVals f)
           else st.buffers)
          s (bi * st.num_envs / st.nbuffers)
          ((bi + 1) * st.num_envs / st.nbuffers) (currentStepVals f)
       else
        (if nextStepNonempty f then
          setAt st.buffers (s + 1) (bi * st.num_envs / st.nbuffers)
            ((bi + 1) * st.num_envs / st.nbuffers) (nextStepVals f)
         else st.buffers)) := by
  unfold RolloutStorage.insert at h
  by_cases hd : (!st.is_double_buffered && bi != 0) = true
  · rw [if_pos hd] at h
    exact absurd h (by simp)
  · rw [if_neg hd] at h
    by_cases hne : (nextStepNonempty f || currentStepNonempty f) = true
    · rw [if_pos hne, hg] at h
      simp only [Option.some.injEq] at h
      rw [← h]
    · rw [if_neg hne] at h
      simp only [Option.some.injEq] at h
      have hn : nextStepNonempty f = false := by
        cases hx : nextStepNonempty f <;> simp [hx] at hne ⊢
      have hc : currentStepNonempty f = false := by
        cases hx : currentStepNonempty f <;> simp [hx] at hne ⊢
      rw [← h, hn, hc]
      simp

/-- Closed form of the plain-return recursion when every mask is 1. -/
theorem returnsNoGaeAux_mask_one (rw mk : Nat → ℚ) (nv g : ℚ)
    (hm : ∀ k, mk k = 1) :
    ∀ d t, returnsNoGaeAux rw mk nv g d t
      = (∑ k ∈ Finset.Ico t (t + d), g ^ (k - t) * rw k) + g ^ d * nv := by
  intro d
  induction d with
  | zero => intro t; simp [returnsNoGaeAux]
  | succ d ih =>
      intro t
      rw [returnsNoGaeAux, ih (t + 1), hm]
      have hsplit : (∑ k ∈ Finset.Ico t (t + (d + 1)), g ^ (k - t) * rw k)
          = g ^ (t - t) * rw t
            + ∑ k ∈ Finset.Ico (t + 1) (t + (d + 1)), g ^ (k - t) * rw k :=
        Finset.sum_eq_sum_Ico_succ_bot (by omega) _
      have hstep : (∑ k ∈ Finset.Ico (t + 1) (t + (d + 1)), g ^ (k - t) * rw k)
          = g * ∑ k ∈ Finset.Ico (t + 1) (t + 1 + d), g ^ (k - (t + 1)) * rw k := by
        rw [Finset.mul_sum]
        have harg : t + (d + 1) = t + 1 + d := by omega
        rw [harg]
        refine Finset.sum_congr rfl ?_
        intro k hk
        rw [Finset.mem_Ico] at hk
        have hks : k - t = (k - (t + 1)) + 1 := by omega
        rw [hks, pow_succ]
        ring
      rw [hsplit, hstep]
      have htt : t - t = 0 := by omega
      rw [htt, pow_zero, pow_succ]
      ring

/-- The returns leaf produced by the use_gae=False branch of
compute_returns, cell by cell. -/
theorem compute_returns_false_buffers (st st' : RolloutStorage)
    (nv : Nat → ℚ) (g tau : ℚ) (s : Nat) (hs : st.step = some s)
    (hc : compute_returns st nv false g tau = some st') :
    ∀ t e, st'.buffers Leaf.returns t e
      = returnsNoGaeAt (fun k => st.buffers Leaf.rewards k e)
          (fun k => st.buffers Leaf.masks k e)
          (fun k => st.buffers Leaf.returns k e) (nv e) g s t := by
  unfold compute_returns at hc
  rw [hs] at hc
  simp only [Bool.false_eq_true, if_false, Option.some.injEq] at hc
  rw [← hc]
  exact fun t e => rfl

/-- The returns and value_preds leaves produced by the use_gae=True branch
of compute_returns, cell by cell. -/
theorem compute_returns_true_buffers (st st' : RolloutStorage)
    (nv : Nat → ℚ) (g tau : ℚ) (s : Nat) (hs : st.step = some s)
    (hc : compute_returns st nv true g tau = some st') :
    (∀ t e, st'.buffers Leaf.returns t e
       = returnsGaeAt (fun k => st.buffers Leaf.rewards k e)
           (fun k => if k = s then nv e else st.buffers Leaf.value_preds k e)
           (fun k => st.buffers Leaf.masks k e)
           (fun k => st.buffers Leaf.returns k e) g tau s t) ∧
    (∀ t e, st'.buffers Leaf.value_preds t e
       = if t = s then nv e else st.buffers Leaf.value_preds t e) := by
  unfold compute_returns at hc
  rw [hs] at hc
  simp only [if_true, Option.some.injEq] at hc
  rw [← hc]
  exact ⟨fun t e => rfl, fun t e => rfl⟩

/-- C1: with every mask true and use_gae=False, compute_returns writes the
plain discounted-return closed form: for t < step, returns[t] is the
discounted reward sum plus the discounted bootstrap next_value, and
returns[step] is next_value itself. -/
theorem compute_returns_plain_closed_form (st st' : RolloutStorage)
    (nv : Nat → ℚ) (g tau : ℚ) (s : Nat)
    (hs : st.step = some s)
    (hm : ∀ t e, st.buffers Leaf.masks t e = 1)
    (hc : compute_returns st nv false g tau = some st') :
    (∀ e t, t < s →
      st'.buffers Leaf.returns t e
        = (∑ k ∈ Finset.Ico t s, g ^ (k - t) * st.buffers Leaf.rewards k e)
          + g ^ (s - t) * nv e) ∧
    (∀ e, st'.buffers Leaf.returns s e = nv e) := by
  have hb := compute_returns_false_buffers st st' nv g tau s hs hc
  constructor
  · intro e t htl
    rw [hb t e]
    unfold returnsNoGaeAt
    rw [if_pos (by omega : t ≤ s)]
    rw [returnsNoGaeAux_mask_one _ _ _ _ (fun k => hm k e) (s - t) t]
    have hts : t + (s - t) = s := by omega
    rw [hts]
  · intro e
    rw [hb s e]
    unfold returnsNoGaeAt
    rw [if_pos le_rfl, Nat.sub_self]
    rfl

/-- C2: with use_gae=True and tau=0, the GAE recursion degenerates to the
one-step TD target: for every t < step, returns[t] equals rewards[t] +
gamma * value_preds[t+1] * masks[t+1], where value_preds is the leaf as the
loop reads it (after value_preds[step] is set to next_value, i.e. the
value_preds leaf of the post-call state). -/
theorem compute_returns_gae_tau_zero (st st' : RolloutStorage)
    (nv : Nat → ℚ) (g : ℚ) (s : Nat)
    (hs : st.step = some s)
    (hc : compute_returns st nv true g 0 = some st') :
    ∀ e t, t < s →
      st'.buffers Leaf.returns t e
        = st.buffers Leaf.rewards t e
          + g * st'.buffers Leaf.value_preds (t + 1) e
              * st.buffers Leaf.masks (t + 1) e := by
  have hb := compute_returns_true_buffers st st' nv g 0 s hs hc
  intro e t htl
  rw [hb.1 t e, hb.2 (t + 1) e]
  unfold returnsGaeAt
  rw [if_pos htl]
  obtain ⟨d, hd⟩ : ∃ d, s - t = d + 1 := ⟨s - t - 1, by omega⟩
  rw [hd]
  simp only [gaeAux]
  ring

/-- C3: a false mask at time t+1 isolates returns[t] from everything beyond
the episode boundary, for both branches and all gamma, tau: the plain and
GAE returns both collapse to rewards[t], and the GAE accumulator at t
collapses to rewards[t] - value_preds[t]; none of value_preds[t+1],
returns[t+1] or any later cell contributes. -/
theorem compute_returns_mask_isolation (st stG stN : RolloutStorage)
    (nv : Nat → ℚ) (g tau : ℚ) (s t e : Nat)
    (hs : st.step = some s) (ht : t < s)
    (hm : st.buffers Leaf.masks (t + 1) e = 0)
    (hG : compute_returns st nv true g tau = some stG)
    (hN : compute_returns st nv false g tau = some stN) :
    stN.buffers Leaf.returns t e = st.buffers Leaf.rewards t e ∧
    stG.buffers Leaf.returns t e = st.buffers Leaf.rewards t e ∧
    gaeAux (fun k => st.buffers Leaf.rewards k e)
        (fun k => if k = s then nv e else st.buffers Leaf.value_preds k e)
        (fun k => st.buffers Leaf.masks k e) g tau (s - t) t
      = st.buffers Leaf.rewards t e - st.buffers Leaf.value_preds t e := by
  obtain ⟨d, hd⟩ : ∃ d, s - t = d + 1 := ⟨s - t - 1, by omega⟩
  have hbN := compute_returns_false_buffers st stN nv g tau s hs hN
  have hbG := (compute_returns_true_buffers st stG nv g tau s hs hG).1
  have hgae : gaeAux (fun k => st.buffers Leaf.rewards k e)
      (fun k => if k = s then nv e else st.buffers Leaf.value_preds k e)
      (fun k => st.buffers Leaf.masks k e) g tau (s - t) t
      = st.buffers Leaf.rewards t e - st.buffers Leaf.value_preds t e := by
    rw [hd]
    simp only [gaeAux, hm]
    rw [if_neg (by omega : ¬ t = s)]
    ring
  refine ⟨?_, ?_, hgae⟩
  · rw [hbN t e]
    unfold returnsNoGaeAt
    rw [if_pos (by omega : t ≤ s), hd]
    simp only [returnsNoGaeAux, hm]
    ring
  · rw [hbG t e]
    unfold returnsGaeAt
    rw [if_pos ht, hgae]
    have hvp : (fun k => if k = s then nv e
          else st.buffers Leaf.value_preds k e) t
        = st.buffers Leaf.value_preds t e := by
      show (if t = s then nv e else st.buffers Leaf.value_preds t e)
        = st.buffers Leaf.value_preds t e
      rw [if_neg (by omega : ¬ t = s)]
    rw [hvp]
    ring

/-- Concatenating the chunks gives back the original list (positive size,
enough fuel). -/
theorem chunksOfAux_flatten (size : Nat) (hsize : 1 ≤ size) :
    ∀ fuel l, l.length ≤ fuel → (chunksOfAux size fuel l).flatten = l := by
  intro fuel
  induction fuel with
  | zero =>
      intro l hl
      cases l with
      | nil => rfl
      | cons x xs => simp at hl
  | succ fuel ih =>
      intro l hl
      cases l with
      | nil => rfl
      | cons x xs =>
          rw [chunksOfAux, List.flatten_cons, ih]
          · exact List.take_append_drop size (x :: xs)
          · simp only [List.length_drop, List.length_cons]
            simp only [List.length_cons] at hl
            omega

/-- The number of chunks is the ceiling of length / size (positive size,
enough fuel). -/
theorem chunksOfAux_length (size : Nat) (hsize : 1 ≤ size) :
    ∀ fuel l, l.length ≤ fuel →
      (chunksOfAux size fuel l).length = (l.length + size - 1) / size := by
  intro fuel
  induction fuel with
  | zero =>
      intro l hl
      cases l with
      | nil =>
          show 0 = (0 + size - 1) / size
          rw [Nat.div_eq_of_lt (by omega)]
      | cons x xs => simp at hl
  | succ fuel ih =>
      intro l hl
      cases l with
      | nil =>
          show 0 = (0 + size - 1) / size
          rw [Nat.div_eq_of_lt (by omega)]
      | cons x xs =>
          rw [chunksOfAux, List.length_cons, ih ((x :: xs).drop size)
            (by simp only [List.length_drop, List.length_cons];
                simp only [List.length_cons] at hl; omega)]
          simp only [List.length_drop, List.length_cons]
          by_cases hc : size ≤ xs.length + 1
          · have h1 : xs.length + 1 + size - 1
                = (xs.length + 1 - size + size - 1) + size := by omega
            rw [h1, Nat.add_div_right _ (by omega)]
          · have h1 : xs.length + 1 - size = 0 := by omega
            rw [h1]
            have h2 : (0 + size - 1) / size = 0 := Nat.div_eq_of_lt (by omega)
            have h3 : (xs.length + 1 + size - 1) / size = 1 :=
              Nat.div_eq_of_lt_le (by omega) (by omega)
            rw [h2, h3]

/-- Concatenating the pieces of chunksOfSize gives back the list. -/
theorem chunksOfSize_flatten (size : Nat) (hsize : 1 ≤ size) (l : List Nat) :
    (chunksOfSize size l).flatten = l :=
  chunksOfAux_flatten size hsize l.length l le_rfl

/-- The piece count of chunksOfSize is the ceiling of length / size. -/
theorem chunksOfSize_length (size : Nat) (hsize : 1 ≤ size) (l : List Nat) :
    (chunksOfSize size l).length = (l.length + size - 1) / size :=
  chunksOfAux_length size hsize l.length l le_rfl

/-- C4 (amended): for num_simulators >= num_mini_batch >= 1 and any
permutation of the simulator indices, recurrent_generator partitions the
permutation into contiguous chunks that are pairwise disjoint and jointly
cover exactly the simulators 0..num_simulators-1, yielding one batch per
chunk; the number of batches is ceil(n / ceil(n / c)) (n = num_simulators,
c = num_mini_batch), which is at most — but not always equal to —
num_mini_batch; in particular 8 simulators with 4 mini batches give exactly
4 batches and 5 simulators with 2 mini batches give exactly 2. -/
theorem recurrent_generator_partition (n c : Nat) (perm : List Nat)
    (chunks : List (List Nat))
    (hc : 1 ≤ c) (hcn : c ≤ n)
    (hperm : perm.Perm (List.range n))
    (h : recurrent_generator n c perm = some chunks) :
    chunks.flatten = perm ∧
    List.Pairwise List.Disjoint chunks ∧
    (∀ x, (∃ ch ∈ chunks, x ∈ ch) ↔ x < n) ∧
    chunks.length = (n + (n + c - 1) / c - 1) / ((n + c - 1) / c) ∧
    chunks.length ≤ c ∧
    (n = 8 → c = 4 → chunks.length = 4) ∧
    (n = 5 → c = 2 → chunks.length = 2) := by
  have hlen : perm.length = n := by
    rw [hperm.length_eq, List.length_range]
  have hn1 : 1 ≤ n := le_trans hc hcn
  have hsize1 : 1 ≤ (n + c - 1) / c := by
    rw [Nat.one_le_div_iff (by omega)]
    omega
  have hchunks : chunks = chunksOfSize ((n + c - 1) / c) perm := by
    unfold recurrent_generator at h
    rw [if_neg (by omega)] at h
    simp only [Option.some.injEq] at h
    rw [← h]
    unfold torchChunk
    rw [hlen]
  subst hchunks
  have hflat : (chunksOfSize ((n + c - 1) / c) perm).flatten = perm :=
    chunksOfSize_flatten _ hsize1 perm
  have hlength : (chunksOfSize ((n + c - 1) / c) perm).length
      = (n + (n + c - 1) / c - 1) / ((n + c - 1) / c) := by
    rw [chunksOfSize_length _ hsize1 perm, hlen]
  have hnodup : perm.Nodup := hperm.symm.nodup (List.nodup_range n)
  have hflatnodup : (chunksOfSize ((n + c - 1) / c) perm).flatten.Nodup := by
    rw [hflat]
    exact hnodup
  have hle : (n + (n + c - 1) / c - 1) / ((n + c - 1) / c) ≤ c := by
    have hdm := Nat.div_add_mod (n + c - 1) c
    have hml : (n + c - 1) % c < c := Nat.mod_lt _ (by omega)
    have hcs : n ≤ c * ((n + c - 1) / c) := by omega
    have hlt : (n + (n + c - 1) / c - 1) / ((n + c - 1) / c) < c + 1 := by
      rw [Nat.div_lt_iff_lt_mul (by omega : 0 < (n + c - 1) / c)]
      have hmul : (c + 1) * ((n + c - 1) / c)
          = c * ((n + c - 1) / c) + (n + c - 1) / c := by ring
      omega
    omega
  refine ⟨hflat, (List.nodup_flatten.mp hflatnodup).2, ?_, hlength, ?_, ?_, ?_⟩
  · intro x
    rw [← List.mem_flatten, hflat, hperm.mem_iff, List.mem_range]
  · rw [hlength]
    exact hle
  · intro hn8 hc4
    subst hn8; subst hc4
    rw [hlength]
  · intro hn5 hc2
    subst hn5; subst hc2
    rw [hlength]

/-- C4 counterexample: 6 simulators and 4 mini batches satisfy the claim's
precondition num_simulators >= num_mini_batch, but recurrent_generator
yields only 3 batches (torch.chunk pieces of size ceil(6/4) = 2), not the
claimed exactly-num_mini_batch = 4. -/
theorem recurrent_generator_chunk_deficit :
    (List.range 6).Perm (List.range 6) ∧ (4 ≤ 6) ∧
    recurrent_generator 6 4 (List.range 6)
      = some [[0, 1], [2, 3], [4, 5]] ∧
    ¬ ((torchChunk (List.range 6) 4).length = 4) := by
  refine ⟨List.Perm.refl _, by omega, by decide, by decide⟩

/-- C4 witness: the amended theorem applied to the concrete permutation
[4, 0, 3, 1, 2] of 5 simulators with 2 mini batches. -/
theorem recurrent_generator_partition_witness :
    ([[4, 0, 3], [1, 2]] : List (List Nat)).flatten = [4, 0, 3, 1, 2] ∧
    (∃ ch ∈ ([[4, 0, 3], [1, 2]] : List (List Nat)), 2 ∈ ch) ∧
    ([[4, 0, 3], [1, 2]] : List (List Nat)).length = 2 := by
  have h := recurrent_generator_partition 5 2 [4, 0, 3, 1, 2]
    [[4, 0, 3], [1, 2]] (by omega) (by omega) (by decide) (by decide)
  exact ⟨h.1, (h.2.2.1 2).mpr (by omega), h.2.2.2.2.2.2 rfl rfl⟩

/-- C8: whenever num_mini_batch exceeds the simulator count, iterating
recurrent_generator fails with the InsufficientSimulators assertion before
any batch is yielded: the result is none, no partial output. -/
theorem recurrent_generator_insufficient (n c : Nat) (perm : List Nat)
    (h : n < c) : recurrent_generator n c perm = none := by
  unfold recurrent_generator
  rw [if_pos h]

/-- C8 witness: 2 simulators with 3 mini batches yield nothing. -/
theorem recurrent_generator_insufficient_witness :
    recurrent_generator 2 3 [0, 1] = none :=
  recurrent_generator_insufficient 2 3 [0, 1] (by omega)

/-- A successful insert leaves a leaf completely unchanged when neither
write group contains it. -/
theorem insert_leaf_untouched_of_absent (st st' : RolloutStorage)
    (f : InsertFields) (bi : Nat) (leaf : Leaf)
    (hnext : nextStepVals f leaf = none)
    (hcur : currentStepVals f leaf = none)
    (h : st.insert f bi = some st') :
    ∀ t e, st'.buffers leaf t e = st.buffers leaf t e := by
  intro t e
  by_cases hne : (nextStepNonempty f || currentStepNonempty f) = true
  · cases hg : st.steps.get? bi with
    | none =>
        exfalso
        unfold RolloutStorage.insert at h
        by_cases hd : (!st.is_double_buffered && bi != 0) = true
        · rw [if_pos hd] at h
          simp at h
        · rw [if_neg hd, if_pos hne, hg] at h
          simp at h
    | some s =>
        rw [insert_some_buffers st st' f bi s hg h]
        by_cases h1 : currentStepNonempty f = true
        · rw [if_pos h1, setAt_of_none _ _ _ _ _ _ hcur]
          by_cases h2 : nextStepNonempty f = true
          · rw [if_pos h2, setAt_of_none _ _ _ _ _ _ hnext]
          · rw [if_neg h2]
        · rw [if_neg h1]
          by_cases h2 : nextStepNonempty f = true
          · rw [if_pos h2, setAt_of_none _ _ _ _ _ _ hnext]
          · rw [if_neg h2]
  · unfold RolloutStorage.insert at h
    by_cases hd : (!st.is_double_buffered && bi != 0) = true
    · rw [if_pos hd] at h
      simp at h
    · rw [if_neg hd, if_neg hne] at h
      simp only [Option.some.injEq] at h
      rw [← h]

/-- A successful insert leaves every cell outside the simulator slice owned
by buffer_index unchanged, whatever the fields. -/
theorem insert_untouched_outside_slice (st st' : RolloutStorage)
    (f : InsertFields) (bi : Nat) (h : st.insert f bi = some st') :
    ∀ leaf t e,
      ¬(bi * st.num_envs / st.nbuffers ≤ e
          ∧ e < (bi + 1) * st.num_envs / st.nbuffers) →
      st'.buffers leaf t e = st.buffers leaf t e := by
  intro leaf t e he
  by_cases hne : (nextStepNonempty f || currentStepNonempty f) = true
  · cases hg : st.steps.get? bi with
    | none =>
        exfalso
        unfold RolloutStorage.insert at h
        by_cases hd : (!st.is_double_buffered && bi != 0) = true
        · rw [if_pos hd] at h
          simp at h
        · rw [if_neg hd, if_pos hne, hg] at h
          simp at h
    | some s =>
        rw [insert_some_buffers st st' f bi s hg h]
        by_cases h1 : currentStepNonempty f = true
        · rw [if_pos h1, setAt_untouched _ _ _ _ _ _ _ _ (by tauto)]
          by_cases h2 : nextStepNonempty f = true
          · rw [if_pos h2, setAt_untouched _ _ _ _ _ _ _ _ (by tauto)]
          · rw [if_neg h2]
        · rw [if_neg h1]
          by_cases h2 : nextStepNonempty f = true
          · rw [if_pos h2, setAt_untouched _ _ _ _ _ _ _ _ (by tauto)]
          · rw [if_neg h2]
  · unfold RolloutStorage.insert at h
    by_cases hd : (!st.is_double_buffered && bi != 0) = true
    · rw [if_pos hd] at h
      simp at h
    · rw [if_neg hd, if_neg hne] at h
      simp only [Option.some.injEq] at h
      rw [← h]

/-- C10: the value_preds argument of insert is never written: every
successful insert leaves the value_preds leaf unchanged everywhere, even
when a non-absent value_preds value is supplied, because value_preds
belongs to neither the next-step nor the current-step write group. -/
theorem insert_value_preds_unchanged (st st' : RolloutStorage)
    (f : InsertFields) (bi : Nat) (h : st.insert f bi = some st') :
    ∀ t e, st'.buffers Leaf.value_preds t e
      = st.buffers Leaf.value_preds t e :=
  insert_leaf_untouched_of_absent st st' f bi Leaf.value_preds rfl rfl h

/-- C10 witness: inserting fullFields (whose value_preds field is present)
into wSingle leaves the value_preds leaf unchanged. -/
theorem insert_value_preds_unchanged_witness :
    fullFields.value_preds.isSome = true ∧
    wSingleOut.buffers Leaf.value_preds 1 0 = 0 ∧
    wSingleOut.buffers Leaf.value_preds 2 1 = 1 := by
  have h := insert_value_preds_unchanged wSingle wSingleOut fullFields 0 rfl
  refine ⟨rfl, ?_, ?_⟩
  · rw [h 1 0]
    decide
  · rw [h 2 1]
    decide

/-- C9: under double buffering, insert targeting buffer_index 0 leaves
every leaf value in the simulator range owned by buffer_index 1 (indices
from num_envs / 2 on) unchanged, and insert targeting buffer_index 1 leaves
the range owned by buffer_index 0 (indices below num_envs / 2) unchanged:
the two halves write disjoint simulator regions. -/
theorem insert_halves_disjoint (st st0 st1 : RolloutStorage)
    (f0 f1 : InsertFields)
    (hdb : st.is_double_buffered = true)
    (h0 : st.insert f0 0 = some st0) (h1 : st.insert f1 1 = some st1) :
    (∀ leaf t e, st.num_envs / 2 ≤ e →
        st0.buffers leaf t e = st.buffers leaf t e) ∧
    (∀ leaf t e, e < st.num_envs / 2 →
        st1.buffers leaf t e = st.buffers leaf t e) := by
  have hnb : st.nbuffers = 2 := by
    unfold RolloutStorage.nbuffers
    rw [hdb]
    rfl
  constructor
  · intro leaf t e he
    refine insert_untouched_outside_slice st st0 f0 0 h0 leaf t e ?_
    rw [hnb]
    simp only [Nat.zero_mul, Nat.one_mul, Nat.zero_div]
    omega
  · intro leaf t e he
    refine insert_untouched_outside_slice st st1 f1 1 h1 leaf t e ?_
    rw [hnb]
    simp only [Nat.one_mul]
    omega

/-- C9 witness: on wDouble (four simulators, two per half) inserting
fullFields at buffer_index 0 leaves simulators 2 and 3 untouched, and at
buffer_index 1 leaves simulators 0 and 1 untouched. -/
theorem insert_halves_disjoint_witness :
    wDouble0Out.buffers Leaf.rewards 1 2 = 2 ∧
    wDouble0Out.buffers Leaf.masks 2 3 = 3 ∧
    wDouble1Out.buffers Leaf.rewards 1 1 = 1 ∧
    wDouble1Out.buffers Leaf.masks 2 0 = 0 := by
  have h := insert_halves_disjoint wDouble wDouble0Out wDouble1Out
    fullFields fullFields rfl rfl rfl
  refine ⟨?_, ?_, ?_, ?_⟩
  · rw [h.1 Leaf.rewards 1 2 (by decide)]
    decide
  · rw [h.1 Leaf.masks 2 3 (by decide)]
    decide
  · rw [h.2 Leaf.rewards 1 1 (by decide)]
    decide
  · rw [h.2 Leaf.masks 2 0 (by decide)]
    decide

/-- A successful insert writes a leaf of the next-step group at time
cursor + 1 inside the owned slice. -/
theorem insert_writes_next (st st' : RolloutStorage) (f : InsertFields)
    (bi s : Nat) (leaf : Leaf) (v : Nat → ℚ)
    (hg : st.steps.get? bi = some s) (h : st.insert f bi = some st')
    (hv : nextStepVals f leaf = some v)
    (hcur : currentStepVals f leaf = none)
    (hne : nextStepNonempty f = true)
    (e : Nat) (h1 : bi * st.num_envs / st.nbuffers ≤ e)
    (h2 : e < (bi + 1) * st.num_envs / st.nbuffers) :
    st'.buffers leaf (s + 1) e
      = v (e - bi * st.num_envs / st.nbuffers) := by
  rw [insert_some_buffers st st' f bi s hg h]
  by_cases hc : currentStepNonempty f = true
  · rw [if_pos hc, setAt_of_none _ _ _ _ _ _ hcur, if_pos hne,
      setAt_of_some _ _ _ _ _ _ _ hv e h1 h2]
  · rw [if_neg hc, if_pos hne, setAt_of_some _ _ _ _ _ _ _ hv e h1 h2]

/-- A successful insert writes a leaf of the current-step group at time
cursor inside the owned slice. -/
theorem insert_writes_current (st st' : RolloutStorage) (f : InsertFields)
    (bi s : Nat) (leaf : Leaf) (v : Nat → ℚ)
    (hg : st.steps.get? bi = some s) (h : st.insert f bi = some st')
    (hv : currentStepVals f leaf = some v)
    (hne : currentStepNonempty f = true)
    (e : Nat) (h1 : bi * st.num_envs / st.nbuffers ≤ e)
    (h2 : e < (bi + 1) * st.num_envs / st.nbuffers) :
    st'.buffers leaf s e = v (e - bi * st.num_envs / st.nbuffers) := by
  rw [insert_some_buffers st st' f bi s hg h]
  rw [if_pos hne, setAt_of_some _ _ _ _ _ _ _ hv e h1 h2]

/-- A successful insert leaves every timestep other than cursor and
cursor + 1 unchanged. -/
theorem insert_untouched_other_times (st st' : RolloutStorage)
    (f : InsertFields) (bi s : Nat)
    (hg : st.steps.get? bi = some s) (h : st.insert f bi = some st') :
    ∀ leaf t e, t ≠ s → t ≠ s + 1 →
      st'.buffers leaf t e = st.buffers leaf t e := by
  intro leaf t e ht1 ht2
  rw [insert_some_buffers st st' f bi s hg h]
  by_cases h1 : currentStepNonempty f = true
  · rw [if_pos h1, setAt_untouched _ _ _ _ _ _ _ _ (by tauto)]
    by_cases h2 : nextStepNonempty f = true
    · rw [if_pos h2, setAt_untouched _ _ _ _ _ _ _ _ (by tauto)]
    · rw [if_neg h2]
  · rw [if_neg h1]
    by_cases h2 : nextStepNonempty f = true
    · rw [if_pos h2, setAt_untouched _ _ _ _ _ _ _ _ (by tauto)]
    · rw [if_neg h2]

/-- C5: insert routes its fields in two groups over the simulator slice
owned by buffer_index: observations, recurrent_hidden_states, masks, and
actions (stored under prev_actions) are written at time cursor + 1, while
actions, action_log_probs, and rewards are written at time cursor; a field
passed as absent is not written at all (its leaf is unchanged everywhere),
and no cell outside the owned slice or outside the two target timesteps is
touched. -/
theorem insert_routing (st st' : RolloutStorage) (f : InsertFields)
    (bi s : Nat)
    (hg : st.steps.get? bi = some s)
    (h : st.insert f bi = some st') :
    (∀ g, f.observations = some g → ∀ sensor e,
        bi * st.num_envs / st.nbuffers ≤ e →
        e < (bi + 1) * st.num_envs / st.nbuffers →
        st'.buffers (Leaf.observations sensor) (s + 1) e
          = g sensor (e - bi * st.num_envs / st.nbuffers)) ∧
    (∀ g, f.recurrent_hidden_states = some g → ∀ e,
        bi * st.num_envs / st.nbuffers ≤ e →
        e < (bi + 1) * st.num_envs / st.nbuffers →
        st'.buffers Leaf.recurrent_hidden_states (s + 1) e
          = g (e - bi * st.num_envs / st.nbuffers)) ∧
    (∀ g, f.masks = some g → ∀ e,
        bi * st.num_envs / st.nbuffers ≤ e →
        e < (bi + 1) * st.num_envs / st.nbuffers →
        st'.buffers Leaf.masks (s + 1) e
          = g (e - bi * st.num_envs / st.nbuffers)) ∧
    (∀ g, f.actions = some g → ∀ e,
        bi * st.num_envs / st.nbuffers ≤ e →
        e < (bi + 1) * st.num_envs / st.nbuffers →
        st'.buffers Leaf.prev_actions (s + 1) e
            = g (e - bi * st.num_envs / st.nbuffers) ∧
        st'.buffers Leaf.actions s e
            = g (e - bi * st.num_envs / st.nbuffers)) ∧
    (∀ g, f.action_log_probs = some g → ∀ e,
        bi * st.num_envs / st.nbuffers ≤ e →
        e < (bi + 1) * st.num_envs / st.nbuffers →
        st'.buffers Leaf.action_log_probs s e
          = g (e - bi * st.num_envs / st.nbuffers)) ∧
    (∀ g, f.rewards = some g → ∀ e,
        bi * st.num_envs / st.nbuffers ≤ e →
        e < (bi + 1) * st.num_envs / st.nbuffers →
        st'.buffers Leaf.rewards s e
          = g (e - bi * st.num_envs / st.nbuffers)) ∧
    (f.observations = none → ∀ sensor t e,
        st'.buffers (Leaf.observations sensor) t e
          = st.buffers (Leaf.observations sensor) t e) ∧
    (f.recurrent_hidden_states = none → ∀ t e,
        st'.buffers Leaf.recurrent_hidden_states t e
          = st.buffers Leaf.recurrent_hidden_states t e) ∧
    (f.masks = none → ∀ t e,
        st'.buffers Leaf.masks t e = st.buffers Leaf.masks t e) ∧
    (f.actions = none → ∀ t e,
        st'.buffers Leaf.prev_actions t e
            = st.buffers Leaf.prev_actions t e ∧
        st'.buffers Leaf.actions t e = st.buffers Leaf.actions t e) ∧
    (f.action_log_probs = none → ∀ t e,
        st'.buffers Leaf.action_log_probs t e
          = st.buffers Leaf.action_log_probs t e) ∧
    (f.rewards = none → ∀ t e,
        st'.buffers Leaf.rewards t e = st.buffers Leaf.rewards t e) ∧
    (∀ leaf t e, ¬(bi * st.num_envs / st.nbuffers ≤ e
          ∧ e < (bi + 1) * st.num_envs / st.nbuffers) →
        st'.buffers leaf t e = st.buffers leaf t e) ∧
    (∀ leaf t e, t ≠ s → t ≠ s + 1 →
        st'.buffers leaf t e = st.buffers leaf t e) := by
  refine ⟨?_, ?_, ?_, ?_, ?_, ?_, ?_, ?_, ?_, ?_, ?_, ?_, ?_, ?_⟩
  · intro g hf sensor e h1 h2
    exact insert_writes_next st st' f bi s (Leaf.observations sensor)
      (g sensor) hg h (by simp [nextStepVals, hf]) rfl
      (by simp [nextStepNonempty, hf]) e h1 h2
  · intro g hf e h1 h2
    exact insert_writes_next st st' f bi s Leaf.recurrent_hidden_states
      g hg h (by simp [nextStepVals, hf]) rfl
      (by simp [nextStepNonempty, hf]) e h1 h2
  · intro g hf e h1 h2
    exact insert_writes_next st st' f bi s Leaf.masks
      g hg h (by simp [nextStepVals, hf]) rfl
      (by simp [nextStepNonempty, hf]) e h1 h2
  · intro g hf e h1 h2
    constructor
    · exact insert_writes_next st st' f bi s Leaf.prev_actions
        g hg h (by simp [nextStepVals, hf]) rfl
        (by simp [nextStepNonempty, hf]) e h1 h2
    · exact insert_writes_current st st' f bi s Leaf.actions
        g hg h (by simp [currentStepVals, hf])
        (by simp [currentStepNonempty, hf]) e h1 h2
  · intro g hf e h1 h2
    exact insert_writes_current st st' f bi s Leaf.action_log_probs
      g hg h (by simp [currentStepVals, hf])
      (by simp [currentStepNonempty, hf]) e h1 h2
  · intro g hf e h1 h2
    exact insert_writes_current st st' f bi s Leaf.rewards
      g hg h (by simp [currentStepVals, hf])
      (by simp [currentStepNonempty, hf]) e h1 h2
  · intro hf sensor t e
    exact insert_leaf_untouched_of_absent st st' f bi
      (Leaf.observations sensor) (by simp [nextStepVals, hf]) rfl h t e
  · intro hf t e
    exact insert_leaf_untouched_of_absent st st' f bi
      Leaf.recurrent_hidden_states (by simp [nextStepVals, hf]) rfl h t e
  · intro hf t e
    exact insert_leaf_untouched_of_absent st st' f bi
      Leaf.masks (by simp [nextStepVals, hf]) rfl h t e
  · intro hf t e
    constructor
    · exact insert_leaf_untouched_of_absent st st' f bi
        Leaf.prev_actions (by simp [nextStepVals, hf]) rfl h t e
    · exact insert_leaf_untouched_of_absent st st' f bi
        Leaf.actions rfl (by simp [currentStepVals, hf]) h t e
  · intro hf t e
    exact insert_leaf_untouched_of_absent st st' f bi
      Leaf.action_log_probs rfl (by simp [currentStepVals, hf]) h t e
  · intro hf t e
    exact insert_leaf_untouched_of_absent st st' f bi
      Leaf.rewards rfl (by simp [currentStepVals, hf]) h t e
  · intro leaf t e he
    exact insert_untouched_outside_slice st st' f bi h leaf t e he
  · exact insert_untouched_other_times st st' f bi s hg h

/-- C5 witness: inserting fullFields into wSingle (cursor 1, slice [0, 2))
writes observations/recurrent_hidden_states/masks/prev_actions at time 2
and actions/action_log_probs/rewards at time 1, and touches no other
timestep. -/
theorem insert_routing_witness :
    wSingleOut.buffers (Leaf.observations "rgb") 2 1 = 11 ∧
    wSingleOut.buffers Leaf.recurrent_hidden_states 2 0 = 20 ∧
    wSingleOut.buffers Leaf.masks 2 1 = 1 ∧
    wSingleOut.buffers Leaf.prev_actions 2 1 = 31 ∧
    wSingleOut.buffers Leaf.actions 1 1 = 31 ∧
    wSingleOut.buffers Leaf.action_log_probs 1 0 = 40 ∧
    wSingleOut.buffers Leaf.rewards 1 1 = 61 ∧
    wSingleOut.buffers Leaf.rewards 0 1 = 1 := by
  have h := insert_routing wSingle wSingleOut fullFields 0 1 rfl rfl
  refine ⟨?_, ?_, ?_, ?_, ?_, ?_, ?_, ?_⟩
  · rw [h.1 _ rfl "rgb" 1 (by decide) (by decide)]
    norm_num [wSingle, RolloutStorage.nbuffers]
  · rw [h.2.1 _ rfl 0 (by decide) (by decide)]
    norm_num [wSingle, RolloutStorage.nbuffers]
  · rw [h.2.2.1 _ rfl 1 (by decide) (by decide)]
  · rw [(h.2.2.2.1 _ rfl 1 (by decide) (by decide)).1]
    norm_num [wSingle, RolloutStorage.nbuffers]
  · rw [(h.2.2.2.1 _ rfl 1 (by decide) (by decide)).2]
    norm_num [wSingle, RolloutStorage.nbuffers]
  · rw [h.2.2.2.2.1 _ rfl 0 (by decide) (by decide)]
    norm_num [wSingle, RolloutStorage.nbuffers]
  · rw [h.2.2.2.2.2.1 _ rfl 1 (by decide) (by decide)]
    norm_num [wSingle, RolloutStorage.nbuffers]
  · rw [h.2.2.2.2.2.2.2.2.2.2.2.2.2 Leaf.rewards 0 1 (by omega) (by omega)]
    norm_num [wSingle]

/-- C6: after_update fails by assertion as soon as two halves' cursors
disagree; when the step property yields the common cursor s, it copies the
timestep-s values into timestep 0 for every leaf, leaves the other
timesteps unchanged, and resets every half's cursor to 0. -/
theorem after_update_spec (st : RolloutStorage) :
    (∀ i j a b, st.steps.get? i = some a → st.steps.get? j = some b →
      a ≠ b → after_update st = none) ∧
    (∀ s st', st.step = some s → after_update st = some st' →
      st'.steps.length = st.steps.length ∧
      st'.steps.all (fun x => x == 0) = true ∧
      (∀ leaf e, st'.buffers leaf 0 e = st.buffers leaf s e) ∧
      (∀ leaf t e, t ≠ 0 → st'.buffers leaf t e = st.buffers leaf t e)) := by
  constructor
  · intro i j a b hi hj hab
    have hstep : st.step = none := by
      unfold RolloutStorage.step
      cases hh : st.steps.head? with
      | none => rfl
      | some s0 =>
          have hall : ¬ (st.steps.all (fun x => x == s0) = true) := by
            intro hall
            rw [List.all_eq_true] at hall
            have ha := hall a (List.get?_mem hi)
            have hb := hall b (List.get?_mem hj)
            simp only [beq_iff_eq] at ha hb
            omega
          show (if (st.steps.all fun x => x == s0) = true
              then some s0 else none) = none
          rw [if_neg hall]
    unfold after_update
    rw [hstep]
  · intro s st' hs h
    unfold after_update at h
    rw [hs] at h
    simp only [Option.some.injEq] at h
    rw [← h]
    refine ⟨by simp, ?_, fun leaf e => rfl, fun leaf t e ht => ?_⟩
    · rw [List.all_eq_true]
      intro x hx
      rw [List.mem_map] at hx
      obtain ⟨y, _, hy⟩ := hx
      rw [← hy]
      rfl
    · show (if t = 0 then st.buffers leaf s e else st.buffers leaf t e)
        = st.buffers leaf t e
      rw [if_neg ht]

/-- C6 witness: the two cursors of wBad disagree so after_update fails;
on wReturns (common cursor 2) after_update copies timestep 2 into
timestep 0, leaves timestep 1 unchanged, and zeroes the cursor. -/
theorem after_update_spec_witness :
    after_update wBad = none ∧
    wAfterOut.steps.all (fun x => x == 0) = true ∧
    wAfterOut.buffers Leaf.rewards 0 0 = 3 ∧
    wAfterOut.buffers Leaf.rewards 1 0 = 2 := by
  have hbad := (after_update_spec wBad).1 0 1 0 1 rfl rfl (by omega)
  have h := (after_update_spec wReturns).2 2 wAfterOut rfl rfl
  refine ⟨hbad, h.2.1, ?_, ?_⟩
  · rw [h.2.2.1 Leaf.rewards 0]
    norm_num [wReturns]
  · rw [h.2.2.2 Leaf.rewards 1 0 (by omega)]
    norm_num [wReturns]

/-- C7 (amended): with double buffering disabled, insert asserts
buffer_index = 0 up front and fails for every nonzero index whatever the
fields; with double buffering enabled, an out-of-range buffer_index (one
with no cursor entry) makes insert fail before anything is written whenever
at least one field is supplied, but a call in which every field is absent
performs no write and returns successfully even for an out-of-range
buffer_index (no validation is reached). -/
theorem insert_buffer_index_validation (st : RolloutStorage)
    (f : InsertFields) (bi : Nat) :
    (st.is_double_buffered = false → bi ≠ 0 → st.insert f bi = none) ∧
    (st.steps.get? bi = none →
      (nextStepNonempty f || currentStepNonempty f) = true →
      st.insert f bi = none) ∧
    ((nextStepNonempty f || currentStepNonempty f) = false →
      st.is_double_buffered = true → st.insert f bi = some st) := by
  refine ⟨?_, ?_, ?_⟩
  · intro hdb hbi
    unfold RolloutStorage.insert
    rw [if_pos (by simp [hdb, hbi])]
  · intro hg hne
    unfold RolloutStorage.insert
    by_cases hd : (!st.is_double_buffered && bi != 0) = true
    · rw [if_pos hd]
    · rw [if_neg hd, if_pos hne, hg]
  · intro hne hdb
    unfold RolloutStorage.insert
    rw [if_neg (by simp [hdb]), if_neg (by simp [hne])]

/-- C7 counterexample: with double buffering enabled, buffer_index 5 is out
of range (wDouble has only halves 0 and 1), yet an insert supplying no
fields returns successfully instead of failing: the source validates
buffer_index only via the assert for the disabled case and the lazy cursor
lookup, which an all-absent call never reaches. -/
theorem insert_invalid_index_accepted :
    wDouble.is_double_buffered = true ∧
    wDouble.nbuffers = 2 ∧
    ¬ (5 < wDouble.nbuffers) ∧
    wDouble.insert emptyFields 5 = some wDouble := by
  refine ⟨rfl, rfl, by decide, rfl⟩

/-- C7 witness: the amended theorem at concrete inputs — a nonzero index
with buffering disabled fails, an out-of-range index with a field supplied
fails, and an out-of-range index with no fields is accepted as a no-op. -/
theorem insert_buffer_index_validation_witness :
    wSingle.insert fullFields 1 = none ∧
    wDouble.insert fullFields 5 = none ∧
    wDouble.insert emptyFields 5 = some wDouble := by
  refine ⟨?_, ?_, ?_⟩
  · exact (insert_buffer_index_validation wSingle fullFields 1).1 rfl
      (by omega)
  · exact (insert_buffer_index_validation wDouble fullFields 5).2.1 rfl rfl
  · exact (insert_buffer_index_validation wDouble emptyFields 5).2.2 rfl rfl

/-- C1 witness: the closed form on wReturns (cursor 2, rewards 1 and 2,
gamma 1/2, bootstrap 10): returns[0] = 1 + (1/2)*2 + (1/4)*10 = 9/2 and
returns[2] = 10. -/
theorem compute_returns_plain_closed_form_witness :
    wReturnsPlainOut.buffers Leaf.returns 0 0 = 9/2 ∧
    wReturnsPlainOut.buffers Leaf.returns 2 0 = 10 := by
  have h := compute_returns_plain_closed_form wReturns wReturnsPlainOut
    (fun _ => 10) (1/2) 0 2 rfl (fun t e => rfl) rfl
  constructor
  · rw [h.1 0 0 (by omega)]
    rw [Finset.sum_eq_sum_Ico_succ_bot (by omega),
      Finset.sum_eq_sum_Ico_succ_bot (by omega)]
    norm_num [wReturns]
  · rw [h.2 0]

/-- C2 witness: the one-step TD target on wReturns with gamma 1/2, tau 0:
returns[1] = rewards[1] + (1/2) * value_preds[2] * masks[2]
= 2 + (1/2) * 10 * 1 = 7 (value_preds[2] having been set to the
bootstrap 10). -/
theorem compute_returns_gae_tau_zero_witness :
    wReturnsGaeOut.buffers Leaf.returns 1 0 = 7 ∧
    wReturnsGaeOut.buffers Leaf.value_preds 2 0 = 10 := by
  have h := compute_returns_gae_tau_zero wReturns wReturnsGaeOut
    (fun _ => 10) (1/2) 2 rfl rfl
  have hvp : wReturnsGaeOut.buffers Leaf.value_preds 2 0 = 10 := rfl
  constructor
  · rw [h 0 1 (by omega), hvp]
    norm_num [wReturns]
  · exact hvp

/-- C3 witness: on wMask the mask at time 1 is 0, so with cursor 2 both
branches give returns[0] = rewards[0] = 1 (gamma 1/2, tau 1/3), however the
later cells are filled. -/
theorem compute_returns_mask_isolation_witness :
    wMaskPlainOut.buffers Leaf.returns 0 0 = 1 ∧
    wMaskGaeOut.buffers Leaf.returns 0 0 = 1 := by
  have h := compute_returns_mask_isolation wMask wMaskGaeOut wMaskPlainOut
    (fun _ => 10) (1/2) (1/3) 2 0 0 rfl (by omega) rfl rfl rfl
  constructor
  · rw [h.1]
    norm_num [wMask]
  · rw [h.2.1]
    norm_num [wMask]
